import Mathlib

/-!
Verification of the job orchestration and progress-streaming engine of the
Finance-Report-Assistant repository (`src/jobs.py`, with its collaborators
`src/converter.py` and the subscriber channel set up in `src/api.py`).

The Python source is shallowly embedded: machine integers are `Int`/`Nat`
(Python integers are unbounded, so no wrap-around modelling is needed),
strings are Lean `String`s manipulated through executable `List Char`
functions, the filesystem of a job working directory is a list of entries,
the external extraction tool is a black-box oracle supplying output lines,
an exit code and the directory it leaves behind, and wall-clock timestamps
(`created_at`, `updated_at`, `ts`, `elapsed_ms`) are omitted: no claim
depends on them.
-/

namespace FRA

/-- ASCII whitespace, embedding Python's `\s` character class and `str.strip`
for the ASCII tool transcripts handled by `jobs.py`. -/
def isSpaceChar (c : Char) : Bool :=
  c = ' ' || c = Char.ofNat 9 || c = Char.ofNat 10 || c = Char.ofNat 13 ||
  c = Char.ofNat 11 || c = Char.ofNat 12

/-- ASCII decimal digit, embedding the regex class `\d` on the tool output. -/
def isDigitChar (c : Char) : Bool := '0' ≤ c && c ≤ '9'

/-- Numeric value of a digit string, most significant digit first. -/
def digitsVal (ds : List Char) : Nat :=
  ds.foldl (fun a c => a * 10 + (c.toNat - 48)) 0

/-- Does `pat` occur as a contiguous segment of `cs`?  Embeds Python's
`in` operator on strings (`x in line`). -/
def segIn (pat : List Char) : List Char → Bool
  | [] => pat.isEmpty
  | c :: rest => pat.isPrefixOf (c :: rest) || segIn pat rest

/-- Substring test on strings, embedding Python's `pat in s`. -/
def strIn (pat s : String) : Bool := segIn pat.toList s.toList

/-- `line.rstrip("\r\n")` from `jobs.py` line 105: strip trailing carriage
returns and newlines. -/
def rstripCRLF (s : String) : String :=
  ⟨(s.toList.reverse.dropWhile fun c => c = Char.ofNat 13 || c = Char.ofNat 10).reverse⟩

/-- `line.strip()` (both-sides whitespace strip), used by the runner to decide
whether a non-progress line is worth logging (`jobs.py` line 121). -/
def stripWs (s : String) : String :=
  ⟨((s.toList.dropWhile isSpaceChar).reverse.dropWhile isSpaceChar).reverse⟩

/-- Lowercase a string (ASCII), embedding Python's `str.lower()`. -/
def lowerStr (s : String) : String := ⟨s.toList.map Char.toLower⟩

/-! ## The percentage pattern

`jobs.py` line 110 runs `re.search(r"(\d{1,3})\s*%", line)`.  `re.search`
finds the leftmost position at which the pattern matches; the group
`\d{1,3}` is greedy, so at each position three digits are tried before two
before one, and after the digits any run of whitespace may precede the
required percent sign. -/

/-- Match `\s*%` at the head of `cs`. -/
def spacesThenPct : List Char → Bool
  | [] => false
  | c :: rest => if isSpaceChar c then spacesThenPct rest else c = '%'

/-- Match `(\d{1,3})\s*%` at the head of `cs` with the group consuming exactly
`n` digits; return the group's numeric value. -/
def pctLen (cs : List Char) (n : Nat) : Option Nat :=
  let ds := cs.take n
  if ds.length = n && ds.all isDigitChar && spacesThenPct (cs.drop n) then
    some (digitsVal ds)
  else none

/-- Match the pattern at the head of `cs`, greedy in the digit count. -/
def pctAt (cs : List Char) : Option Nat :=
  (pctLen cs 3).orElse fun _ => (pctLen cs 2).orElse fun _ => pctLen cs 1

/-- Leftmost match of `(\d{1,3})\s*%` over the whole line: the embedding of
`re.search` followed by `int(m.group(1))`. -/
def searchPct : List Char → Option Nat
  | [] => none
  | c :: rest =>
    match pctAt (c :: rest) with
    | some n => some n
    | none => searchPct rest

/-! ## Events, subscriber channels, job registry (`jobs.py` lines 17-67) -/

/-- One published event: the JSON payload of `publish_event` embedded as a
structure.  A field of value `none` models the key being absent from the
payload.  `ok` is tri-state in the source (`None`/`True`/`False` when the key
is present), hence `Option (Option Bool)`.  The `job_id` and `ts` defaults
(wall-clock timestamp) and `elapsed_ms` are not modelled: no claim depends
on them. -/
structure Event where
  etype : String
  level : Option String := none
  stage : Option String := none
  percent : Option Int := none
  ok : Option (Option Bool) := none
  error : Option (Option String) := none
  md_path : Option String := none
  message : Option String := none
deriving Repr, DecidableEq

/-- A bounded subscriber channel: `queue.Queue(maxsize=cap)` holding already
serialized events (`api.py` line 326 creates it with `maxsize=1000`). -/
structure Chan (α : Type) where
  cap : Nat
  buf : List α
deriving Repr, DecidableEq

/-- `q.put_nowait(x)`: append if there is room, otherwise fail (`queue.Full`,
modelled as `none`). -/
def put_nowait (q : Chan α) (x : α) : Option (Chan α) :=
  if q.buf.length < q.cap then some ⟨q.cap, q.buf ++ [x]⟩ else none

/-- `q.get_nowait()`: pop the oldest element, failing on an empty queue. -/
def get_nowait (q : Chan α) : Option (α × Chan α) :=
  match q.buf with
  | [] => none
  | x :: rest => some (x, ⟨q.cap, rest⟩)

/-- The per-subscriber delivery of `publish_event` (`jobs.py` lines 60-67):
try a non-blocking put; on a full queue discard the oldest element and retry;
if the retry fails too, drop the event — every failure is swallowed. -/
def deliver (q : Chan α) (x : α) : Chan α :=
  match put_nowait q x with
  | some q1 => q1
  | none =>
    let q1 := match get_nowait q with
      | some pr => pr.2
      | none => q
    match put_nowait q1 x with
    | some q2 => q2
    | none => q1

/-- Deliver a whole sequence of events to one channel, in publish order. -/
def deliverAll (q : Chan α) (xs : List α) : Chan α := xs.foldl deliver q

/-- The registry record of one job (`JobState` in `jobs.py`).  `created_at`
and `updated_at` (wall-clock times) are omitted; the filesystem paths are
kept as component lists. -/
structure JobState where
  job_id : String
  user : String
  stage : String
  percent : Int
  ok : Option Bool
  error : Option String
  pdf_name : String
  job_dir : List String
  md_path : Option String
  subscribers : List (Chan Event)
deriving Repr, DecidableEq

/-- The job registry `_JOBS`: a finite map from job id to state, embedded as
an association list (ids are unique by construction in the source). -/
abbrev Registry := List (String × JobState)

/-- Apply one event payload to a job state and fan it out to the job's
subscribers, mirroring the key-presence tests of `publish_event`
(`jobs.py` lines 48-67): `stage` is set when present (it is always a string
here by typing), `percent` when present, `ok` when present (the source also
accepts `None`), `error` when present, `md_path` only when present and
truthy (a non-empty string). -/
def applyEvent (st : JobState) (e : Event) : JobState :=
  { st with
    stage := match e.stage with | some s => s | none => st.stage
    percent := match e.percent with | some p => p | none => st.percent
    ok := match e.ok with | some v => v | none => st.ok
    error := match e.error with | some v => v | none => st.error
    md_path := match e.md_path with
      | some p => if p = "" then st.md_path else some p
      | none => st.md_path
    subscribers := st.subscribers.map fun q => deliver q e }

/-- `publish_event(job_id, event)` (`jobs.py` lines 39-67): look the job up
in the registry; when present, update its materialized state and deliver the
event to every subscriber; when absent, do nothing at all. -/
def publish_event (job_id : String) (e : Event) (reg : Registry) : Registry :=
  reg.map fun p => if p.1 = job_id then (p.1, applyEvent p.2 e) else p

/-! ## Process Runner (`_run_cmd_stream`, `jobs.py` lines 75-127)

The external command is a black box (§1 of the spec): the embedding receives
the list of lines it printed to its merged output stream and its exit code.
The process-spawn failure branches (lines 96-101) are outside the streaming
loop the claims are about and are not modelled.  The Python percent mapping
`int((pct / 100.0) * percent_span)` — truncation of a float product — is
embedded as exact integer truncating division `Int.tdiv`, which agrees with
it on the values in range. -/

/-- The fixed error-signature markers of `jobs.py` line 107. -/
def errorMarkers : List String :=
  ["Traceback", "Error", "Exception", "RuntimeError", "ModelWrapper",
   "ProtocolError", "ChunkedEncodingError", "IncompleteRead"]

/-- Does the line contain any error-signature marker? -/
def hasMarker (line : String) : Bool := errorMarkers.any fun m => strIn m line

/-- The event built by `_log_job` (`jobs.py` lines 69-73): a `log` payload
carrying level, stage, message and, when supplied, a percent. -/
def logEvent (level stage msg : String) (pct : Option Int) : Event :=
  { etype := "log", level := some level, stage := some stage,
    message := some msg, percent := pct }

/-- The loop state of `_run_cmd_stream`: last percent sent (starts at -1),
retained error-signature lines, full transcript, and the events published
so far (in publish order). -/
structure RunAcc where
  last_sent : Int
  error_lines : List String
  full_output : List String
  events : List Event
deriving Repr, DecidableEq

/-- One iteration of the line loop (`jobs.py` lines 104-121): strip the line
ending, record it in the transcript, retain it as an error hint if it bears a
marker and fewer than 10 hints are held, then classify it as a progress line
(leftmost `NN%` token: map into the job-global range, clamp to `[0,99]`, and
attach the percent only when it advanced by at least `step` since the last
sent value) or as a plain log line (published only when non-blank). -/
def procLine (step : Int) (stage : String) (percent_base percent_span : Int)
    (acc : RunAcc) (line0 : String) : RunAcc :=
  let line := rstripCRLF line0
  let out := acc.full_output ++ [line]
  let errs :=
    if hasMarker line && acc.error_lines.length < 10 then
      acc.error_lines ++ [line]
    else acc.error_lines
  match searchPct line.toList with
  | some pctN =>
    let mapped :=
      max 0 (min 99 (percent_base + Int.tdiv (Int.ofNat pctN * percent_span) 100))
    if step ≤ mapped - acc.last_sent then
      ⟨mapped, errs, out, acc.events ++ [logEvent "INFO" stage line (some mapped)]⟩
    else
      ⟨acc.last_sent, errs, out, acc.events ++ [logEvent "INFO" stage line none]⟩
  | none =>
    if stripWs line = "" then ⟨acc.last_sent, errs, out, acc.events⟩
    else ⟨acc.last_sent, errs, out, acc.events ++ [logEvent "INFO" stage line none]⟩

/-- The outcome of `_run_cmd_stream`: its returned triple
`(success, hint, full transcript)` together with the retained error lines,
the published events and the final `last_sent` percent threshold, kept as
observations. -/
structure RunResult where
  success : Bool
  hint : Option String
  full_log : String
  error_lines : List String
  events : List Event
  last_sent : Int
deriving Repr, DecidableEq

/-- `_run_cmd_stream` over a finished process: fold the line loop over the
transcript, then build the result (`jobs.py` lines 122-127): success requires
exit code 0 and no retained error line; the hint is the `"; "`-join of the
retained lines when any exist. -/
def run_cmd_stream (step : Int) (stage : String) (percent_base percent_span : Int)
    (lines : List String) (rc : Int) : RunResult :=
  let acc := lines.foldl (procLine step stage percent_base percent_span) ⟨-1, [], [], []⟩
  { success := decide (rc = 0) && acc.error_lines.isEmpty
    hint := if acc.error_lines.isEmpty then none
            else some (String.intercalate "; " acc.error_lines)
    full_log := String.intercalate "\n" acc.full_output
    error_lines := acc.error_lines
    events := acc.events
    last_sent := acc.last_sent }

/-! ## The job working directory and `search_md` (`converter.py` lines 82-88)

A directory is a flat list of entries; an entry's `path` is its list of name
components relative to the job directory (length 1 for a top-level item).
`Path.resolve()` is the identity in this model (paths are relative to one
fixed job directory and symlinks are out of scope). -/

/-- One filesystem entry under the job working directory. -/
structure Entry where
  path : List String
  isDir : Bool
  mtime : Int
deriving Repr, DecidableEq

/-- A job working directory's contents. -/
abbrev Dir := List Entry

/-- The final name component of an entry. -/
def entryName (e : Entry) : String := e.path.getLastD ""

/-- Index of the last `.` in a name, if any. -/
def lastDotIdx (cs : List Char) : Option Nat :=
  (List.range cs.length).foldl
    (fun a k => if cs.getD k ' ' = '.' then some k else a) none

/-- `pathlib.PurePath.suffix`: the extension from the last dot of the name,
empty when that dot is leading or trailing (CPython: `name[i:]` when
`0 < i < len(name) - 1`). -/
def fileSuffix (name : String) : String :=
  let cs := name.toList
  match lastDotIdx cs with
  | some k => if 0 < k && k + 1 < cs.length then ⟨cs.drop k⟩ else ""
  | none => ""

/-- The pre-attempt sweep of the working directory (`jobs.py` lines 149-154):
every top-level subdirectory is removed recursively and every top-level file
whose lowercased suffix is not `.pdf` is unlinked.  The source swallows
deletion errors; the embedding models deletion as succeeding. -/
def clear_workdir (d : Dir) : Dir :=
  d.filter fun e =>
    decide (e.path.length = 1) && !e.isDir &&
      decide (lowerStr (fileSuffix (e.path.headD "")) = ".pdf")

/-- What the pre-attempt sweep guarantees: only top-level plain files with a
`.pdf` suffix (case-insensitively) survive. -/
def pdfOnly (e : Entry) : Prop :=
  e.path.length = 1 ∧ e.isDir = false ∧
    lowerStr (fileSuffix (e.path.headD "")) = ".pdf"

/-- Stable insertion into a list already sorted by descending `mtime`:
the element goes before the first strictly older entry, so entries of equal
`mtime` keep their original relative order — the behavior of Python's stable
`sort(key=mtime, reverse=True)`. -/
def insertByMtime (x : Entry) : List Entry → List Entry
  | [] => [x]
  | y :: rest =>
    if y.mtime < x.mtime then x :: y :: rest else y :: insertByMtime x rest

/-- Sort a list of entries by descending `mtime`, stably. -/
def sortByMtimeDesc (l : List Entry) : List Entry :=
  l.foldl (fun acc x => insertByMtime x acc) []

/-- `search_md(out_dir, pdf_basename)` (`converter.py` lines 82-88): collect
every entry matching `rglob("*.md")` (final name component ending in `.md`;
`rglob` does not test for regular files), order them newest first, and return
the first whose name contains the basename case-insensitively, else the
newest one, else nothing. -/
def search_md (d : Dir) (pdf_basename : String) : Option (List String) :=
  let mds := d.filter fun e => ".md".toList.isSuffixOf (entryName e).toList
  let mds := sortByMtimeDesc mds
  match mds.find? (fun e =>
      segIn (lowerStr pdf_basename).toList (lowerStr (entryName e)).toList) with
  | some e => some e.path
  | none => mds.head?.map Entry.path

/-! ## Conversion Orchestrator (`_convert_job`, `jobs.py` lines 129-196)

The candidate command list is taken as given (its construction in
`candidate_commands` depends on installed binaries and settings, external
collaborators per §2 of the spec).  The external tool run for attempt `i` is
an oracle from the cleaned directory to the lines it prints, its exit code
and the directory contents it leaves behind.  The `conversion.log` file
written into the job directory is kept as a separate observation field (it
is written after the convert loop has finished, so it never participates in
`search_md` probing between attempts). -/

/-- The black-box external tool: attempt index and directory in, printed
lines, exit code and directory out. -/
abbrev Tool := Nat → Dir → List String × Int × Dir

/-- Observation record of one convert attempt: its index, the directory
handed to the tool (after the pre-attempt sweep), the runner verdict, the
full transcript and whether a result file was discoverable afterwards. -/
structure Attempt where
  idx : Nat
  dir_in : Dir
  cmd_ok : Bool
  full_log : String
  md_found : Bool
deriving Repr, DecidableEq

/-- Result of the candidate loop of `_convert_job` (lines 145-162). -/
structure LoopOut where
  ok : Bool
  dir : Dir
  last_error_log : String
  success_log : String
  events : List Event
  trace : List Attempt
deriving Repr, DecidableEq

/-- The `"Attempt i/n: cmd"` log line published before each attempt
(`jobs.py` line 148). -/
def attemptEvent (i n : Nat) (cmd : List String) : Event :=
  logEvent "INFO" "convert"
    ("Attempt " ++ toString (i + 1) ++ "/" ++ toString n ++ ": " ++
      String.intercalate " " cmd) none

/-- The candidate loop (`jobs.py` lines 147-162): for each candidate in
order, publish the attempt log, clear the working directory, run the tool
through the runner with `percent_base=5, percent_span=80`, probe for a
result file; stop at the first attempt whose runner verdict is success and
whose probe finds a file, else remember its transcript and move on. -/
def run_attempts (tool : Tool) (step : Int) (stem : String) (n : Nat) :
    Nat → List (List String) → Dir → String → LoopOut
  | _, [], d, lastLog =>
    { ok := false, dir := d, last_error_log := lastLog, success_log := "",
      events := [], trace := [] }
  | i, cmd :: rest, d, lastLog =>
    let d1 := clear_workdir d
    let out := tool i d1
    let r := run_cmd_stream step "convert" 5 80 out.1 out.2.1
    let d2 := out.2.2
    let mdp := search_md d2 stem
    let att : Attempt := ⟨i, d1, r.success, r.full_log, mdp.isSome⟩
    let evts := attemptEvent i n cmd :: r.events
    if r.success && mdp.isSome then
      { ok := true, dir := d2, last_error_log := lastLog,
        success_log := r.full_log, events := evts, trace := [att] }
    else
      let rec' := run_attempts tool step stem n (i + 1) rest d2 r.full_log
      { rec' with events := evts ++ rec'.events, trace := att :: rec'.trace }

/-- The apostrophe character, used inside the network-failure message. -/
def apos : String := ⟨[Char.ofNat 39]⟩

/-- Error classification on candidate exhaustion (`jobs.py` lines 169-175):
substring inspection of the last transcript — the engine marker wins, then
the network markers, else a generic message. -/
def classify_error (log : String) : String :=
  "Failed to convert. " ++
    (if strIn "ModelWrapper" log then "Detected Layout engine issue."
     else if ["ProtocolError", "ChunkedEncodingError", "IncompleteRead"].any
         (fun m => strIn m log) then
       "Model download failed due to network instability. Please run " ++
         apos ++ "mineru-models-download" ++ apos ++
         " manually in the environment."
     else "Check logs for detailed traceback.")

/-- A plain `progress` payload as published by the orchestrator: stage,
percent and a tri-state `ok` (the key is always present, possibly `None`). -/
def progressEvent (stage : String) (pct : Int) (okv : Option Bool) : Event :=
  { etype := "progress", stage := some stage, percent := some pct,
    ok := some okv }

/-- Path rendered as a string (components joined), for the `md_path` payload
field of the terminal success event. -/
def pathStr (p : List String) : String := String.intercalate "/" p

/-- Copy the entry at `src` to `target` (`shutil.copy2`: contents and mtime
preserved), used for the final output placement. -/
def copyTo (d : Dir) (src target : List String) : Dir :=
  match d.find? (fun e => decide (e.path = src)) with
  | some e => d ++ [{ path := target, isDir := e.isDir, mtime := e.mtime }]
  | none => d

/-- Everything `_convert_job` leaves behind: the events published in order,
the final directory contents, the `conversion.log` text written into the job
directory (if reached), the `ok` flag recorded to the history sink, and the
attempt trace. -/
structure JobOut where
  events : List Event
  dir : Dir
  conversion_log : Option String
  history_ok : Option Bool
  trace : List Attempt
  loop_ok : Bool
deriving Repr, DecidableEq

/-- The terminal failure event (`jobs.py` line 177). -/
def errorEvent (msg : String) : Event :=
  { etype := "progress", stage := some "error", percent := some 100,
    ok := some (some false), error := some (some msg) }

/-- The terminal success event (`jobs.py` line 195; the wall-clock
`elapsed_ms` and the `device` echo are not modelled). -/
def doneEvent (md : String) : Event :=
  { etype := "progress", stage := some "done", percent := some 100,
    ok := some (some true), md_path := some md }

/-- The three events published before the candidate loop
(`jobs.py` lines 131-144). -/
def preEvents (pdf_name : String) : List Event :=
  [progressEvent "prepare" 1 none,
   logEvent "INFO" "prepare" ("job started: " ++ pdf_name) none,
   progressEvent "convert" 5 none]

/-- `_convert_job` (`jobs.py` lines 129-196): publish `prepare`(1) and its
start log, publish `convert`(5), run the candidate loop; on exhaustion
persist the last transcript as `conversion.log`, classify it and publish the
terminal `error`(100, ok=false) event; on success persist the winning
transcript, publish `collect_output`(90), re-probe for the result file
(falling back to the system temp directories, an external collaborator
modelled by the `default_md` argument), copy it to the canonical
`<stem>.md` name when needed, and publish the terminal
`done`(100, ok=true) event carrying the canonical path. -/
def convert_job (tool : Tool) (step : Int) (cmds : List (List String))
    (stem pdf_name : String) (default_md : Option (List String)) (d0 : Dir) :
    JobOut :=
  let lo := run_attempts tool step stem cmds.length 0 cmds d0 ""
  if lo.ok then
    let mdp := (search_md lo.dir stem).orElse fun _ => default_md
    match mdp with
    | some p =>
      let target : List String := [stem ++ ".md"]
      let dir2 := if p = target then lo.dir else copyTo lo.dir p target
      { events := preEvents pdf_name ++ lo.events ++
          [progressEvent "collect_output" 90 none, doneEvent (pathStr target)],
        dir := dir2, conversion_log := some lo.success_log,
        history_ok := some true, trace := lo.trace, loop_ok := true }
    | none =>
      { events := preEvents pdf_name ++ lo.events ++
          [progressEvent "collect_output" 90 none],
        dir := lo.dir, conversion_log := some lo.success_log,
        history_ok := none, trace := lo.trace, loop_ok := true }
  else
    { events := preEvents pdf_name ++ lo.events ++
        [errorEvent (classify_error lo.last_error_log)],
      dir := lo.dir, conversion_log := some lo.last_error_log,
      history_ok := some false, trace := lo.trace, loop_ok := false }

/-! ## Retention Sweeper (`perform_cleanup`, `jobs.py` lines 198-210) -/

/-- One top-level item of the output root.  `rm_fails` models
`shutil.rmtree` (or `stat`) raising for that item; the source swallows the
exception and moves to the next item. -/
structure TopItem where
  name : String
  isDir : Bool
  mtime : Int
  rm_fails : Bool
deriving Repr, DecidableEq

/-- Does the sweep delete this item?  `jobs.py` lines 204-209: directories
other than `logs` whose age strictly exceeds the TTL, provided the deletion
does not raise. -/
def sweepDeletes (now ttl_seconds : Int) (it : TopItem) : Bool :=
  it.isDir && decide (it.name ≠ "logs") &&
    decide (ttl_seconds < now - it.mtime) && !it.rm_fails

/-- `perform_cleanup` over the output root: walk the top-level items in
order; delete each expired job directory and drop its registry entry; keep
everything else; a failing deletion leaves the item and its registry entry in
place and never stops the walk.  Returns the surviving items and registry. -/
def perform_cleanup (now ttl_seconds : Int) :
    List TopItem → Registry → List TopItem × Registry
  | [], reg => ([], reg)
  | it :: rest, reg =>
    if sweepDeletes now ttl_seconds it then
      let reg1 := reg.filter fun p => decide (p.1 ≠ it.name)
      perform_cleanup now ttl_seconds rest reg1
    else
      let out := perform_cleanup now ttl_seconds rest reg
      (it :: out.1, out.2)

/-! ## Concrete fixtures for closed instance checks -/

/-- A job working directory holding only the uploaded source file. -/
def wPdf : Entry := { path := ["r.pdf"], isDir := false, mtime := 0 }

/-- The result file a successful tool run leaves behind. -/
def wMd : Entry := { path := ["r.md"], isDir := false, mtime := 5 }

/-- A tool run that prints one error-signature line, exits 1 and produces
nothing. -/
def toolFailW : Tool := fun _ d => (["RuntimeError: boom"], 1, d)

/-- A tool whose first candidate fails (exit 1, no output file) and whose
second succeeds (exit 0, result file present). -/
def toolTwoW : Tool := fun i d => if i = 0 then ([], 1, d) else ([], 0, d ++ [wMd])

/-- A freshly registered job with no subscribers. -/
def cexJob : JobState :=
  { job_id := "j", user := "u", stage := "queued", percent := 0, ok := none,
    error := none, pdf_name := "a.pdf", job_dir := ["j"], md_path := none,
    subscribers := [] }

/-- The record of the first (failing) attempt of `toolTwoW`. -/
def wAtt : Attempt :=
  { idx := 0, dir_in := [wPdf], cmd_ok := false, full_log := "", md_found := false }

/-- An expired job directory under the output root. -/
def wItemOld : TopItem := { name := "job1", isDir := true, mtime := 0, rm_fails := false }

/-- A fresh job directory under the output root. -/
def wItemNew : TopItem := { name := "job2", isDir := true, mtime := 100, rm_fails := false }

/-! ## Lemmas about the Process Runner -/

/-- The shape every event published from inside the runner's line loop has:
a `log` payload for the runner's stage, never carrying `ok`, `error` or
`md_path` keys. -/
def runnerShape (stage : String) (e : Event) : Prop :=
  e.etype = "log" ∧ e.stage = some stage ∧ e.ok = none ∧ e.error = none ∧
    e.md_path = none

/-- Any percent the event carries is the clamped truncating mapping of the
percentage token found on `line`. -/
def percentFrom (pb ps : Int) (line : String) (e : Event) : Prop :=
  ∀ p, e.percent = some p → ∃ pctN,
    searchPct (rstripCRLF line).toList = some pctN ∧
    p = max 0 (min 99 (pb + Int.tdiv (Int.ofNat pctN * ps) 100))

theorem clamp_nonneg_le (x : Int) : 0 ≤ max 0 (min 99 x) ∧ max 0 (min 99 x) ≤ 99 :=
  ⟨le_max_left 0 _, max_le (by norm_num) (min_le_left _ _)⟩

theorem procLine_events (step : Int) (stage : String) (pb ps : Int)
    (acc : RunAcc) (line : String) :
    ∃ tail, (procLine step stage pb ps acc line).events = acc.events ++ tail ∧
      ∀ e ∈ tail, runnerShape stage e ∧ percentFrom pb ps line e := by
  unfold procLine
  cases hm : searchPct (rstripCRLF line).toList with
  | some pctN =>
    simp only [hm]
    split
    · refine ⟨_, rfl, ?_⟩
      intro e he
      simp only [List.mem_singleton] at he
      subst he
      refine ⟨⟨rfl, rfl, rfl, rfl, rfl⟩, ?_⟩
      intro p hp
      simp only [logEvent, Option.some.injEq] at hp
      exact ⟨pctN, hm, hp.symm⟩
    · refine ⟨_, rfl, ?_⟩
      intro e he
      simp only [List.mem_singleton] at he
      subst he
      exact ⟨⟨rfl, rfl, rfl, rfl, rfl⟩, fun p hp => by simp [logEvent] at hp⟩
  | none =>
    simp only [hm]
    split
    · exact ⟨[], by simp, by simp⟩
    · refine ⟨_, rfl, ?_⟩
      intro e he
      simp only [List.mem_singleton] at he
      subst he
      exact ⟨⟨rfl, rfl, rfl, rfl, rfl⟩, fun p hp => by simp [logEvent] at hp⟩

theorem procLine_pct_step (step : Int) (stage : String) (pb ps : Int)
    (acc : RunAcc) (line : String) (pctN : Nat)
    (hm : searchPct (rstripCRLF line).toList = some pctN) :
    (procLine step stage pb ps acc line).events
      = acc.events ++ [logEvent "INFO" stage (rstripCRLF line)
          (if step ≤ max 0 (min 99 (pb + Int.tdiv (Int.ofNat pctN * ps) 100))
                - acc.last_sent
           then some (max 0 (min 99 (pb + Int.tdiv (Int.ofNat pctN * ps) 100)))
           else none)] ∧
    (procLine step stage pb ps acc line).last_sent
      = (if step ≤ max 0 (min 99 (pb + Int.tdiv (Int.ofNat pctN * ps) 100))
              - acc.last_sent
         then max 0 (min 99 (pb + Int.tdiv (Int.ofNat pctN * ps) 100))
         else acc.last_sent) := by
  unfold procLine
  simp only [hm]
  by_cases hc : step ≤ max 0 (min 99 (pb + Int.tdiv (Int.ofNat pctN * ps) 100))
      - acc.last_sent
  · simp only [hc, if_true]
    exact ⟨trivial, trivial⟩
  · simp only [hc, if_false]
    exact ⟨trivial, trivial⟩

theorem runFold_events_mono (step : Int) (stage : String) (pb ps : Int) :
    ∀ (ls : List String) (acc : RunAcc),
      ∃ tail, (ls.foldl (procLine step stage pb ps) acc).events
        = acc.events ++ tail := by
  intro ls
  induction ls with
  | nil => intro acc; exact ⟨[], by simp⟩
  | cons a as ih =>
    intro acc
    obtain ⟨t1, h1, -⟩ := procLine_events step stage pb ps acc a
    obtain ⟨t2, h2⟩ := ih (procLine step stage pb ps acc a)
    exact ⟨t1 ++ t2, by rw [List.foldl_cons, h2, h1, List.append_assoc]⟩

theorem runFold_events (step : Int) (stage : String) (pb ps : Int) :
    ∀ (lines : List String) (acc : RunAcc) (e : Event),
      e ∈ (lines.foldl (procLine step stage pb ps) acc).events →
      e ∈ acc.events ∨
        ∃ line, line ∈ lines ∧ runnerShape stage e ∧ percentFrom pb ps line e := by
  intro lines
  induction lines with
  | nil => intro acc e he; exact Or.inl he
  | cons a as ih =>
    intro acc e he
    rcases ih (procLine step stage pb ps acc a) e he with h | ⟨l, hl, hprops⟩
    · obtain ⟨tail, htl, hall⟩ := procLine_events step stage pb ps acc a
      rw [htl] at h
      rcases List.mem_append.mp h with h | h
      · exact Or.inl h
      · exact Or.inr ⟨a, List.mem_cons_self _ _, hall e h⟩
    · exact Or.inr ⟨l, List.mem_cons_of_mem _ hl, hprops⟩

/-- Every event published by `_run_cmd_stream` is a `log` event for its stage
without outcome fields, and any percent it carries is the clamped truncating
mapping of a percentage token of some transcript line. -/
theorem run_events_spec (step : Int) (stage : String) (pb ps : Int)
    (lines : List String) (rc : Int) (e : Event)
    (he : e ∈ (run_cmd_stream step stage pb ps lines rc).events) :
    runnerShape stage e ∧ ∃ line, line ∈ lines ∧ percentFrom pb ps line e := by
  have he' : e ∈ (lines.foldl (procLine step stage pb ps) ⟨-1, [], [], []⟩).events := by
    simpa [run_cmd_stream] using he
  rcases runFold_events step stage pb ps lines ⟨-1, [], [], []⟩ e he' with h | ⟨l, hl, h1, h2⟩
  · simp at h
  · exact ⟨h1, l, hl, h2⟩

/-- Any percent carried by a runner event lies in `[0, 99]`. -/
theorem run_events_percent_bound (step : Int) (stage : String) (pb ps : Int)
    (lines : List String) (rc : Int) (e : Event)
    (he : e ∈ (run_cmd_stream step stage pb ps lines rc).events)
    (p : Int) (hp : e.percent = some p) : 0 ≤ p ∧ p ≤ 99 := by
  obtain ⟨_, l, _, hpf⟩ := run_events_spec step stage pb ps lines rc e he
  obtain ⟨pctN, _, hEq⟩ := hpf p hp
  rw [hEq]
  exact clamp_nonneg_le _

theorem procLine_error_lines (step : Int) (stage : String) (pb ps : Int)
    (acc : RunAcc) (line : String) :
    (procLine step stage pb ps acc line).error_lines =
      if hasMarker (rstripCRLF line) && acc.error_lines.length < 10 then
        acc.error_lines ++ [rstripCRLF line]
      else acc.error_lines := by
  unfold procLine
  cases hm : searchPct (rstripCRLF line).toList <;> simp only [hm] <;> split <;> rfl

theorem runFold_error_lines (step : Int) (stage : String) (pb ps : Int) :
    ∀ (lines : List String) (acc : RunAcc) (prev : List String),
      acc.error_lines = (prev.filter hasMarker).take 10 →
      (lines.foldl (procLine step stage pb ps) acc).error_lines
        = ((prev ++ lines.map rstripCRLF).filter hasMarker).take 10 := by
  intro lines
  induction lines with
  | nil => intro acc prev h; simpa using h
  | cons a as ih =>
    intro acc prev h
    have hstep : (procLine step stage pb ps acc a).error_lines
        = ((prev ++ [rstripCRLF a]).filter hasMarker).take 10 := by
      rw [procLine_error_lines, h, List.filter_append]
      by_cases hmk : hasMarker (rstripCRLF a) = true
      · have hfl : List.filter hasMarker [rstripCRLF a] = [rstripCRLF a] := by
          simp [hmk]
        rw [hfl]
        by_cases hlen : (prev.filter hasMarker).length < 10
        · have htk : (prev.filter hasMarker).take 10 = prev.filter hasMarker :=
            List.take_of_length_le (by omega)
          rw [if_pos (by simp only [htk, hmk, Bool.true_and, decide_eq_true_eq]; exact hlen)]
          rw [htk, List.take_of_length_le
            (by simp only [List.length_append, List.length_singleton]; omega)]
        · rw [if_neg (by
            simp only [hmk, Bool.true_and, decide_eq_true_eq, List.length_take]
            omega)]
          rw [List.take_append_of_le_length (by omega)]
      · have hfl : List.filter hasMarker [rstripCRLF a] = [] := by
          simp [hmk]
        rw [hfl, List.append_nil, if_neg (by simp [hmk])]
    have hrec := ih (procLine step stage pb ps acc a) (prev ++ [rstripCRLF a]) hstep
    simpa [List.append_assoc] using hrec

/-- The retained error-signature lines are exactly the first 10 transcript
lines bearing a marker, verbatim (after line-ending stripping). -/
theorem run_error_lines_eq (step : Int) (stage : String) (pb ps : Int)
    (lines : List String) (rc : Int) :
    (run_cmd_stream step stage pb ps lines rc).error_lines
      = ((lines.map rstripCRLF).filter hasMarker).take 10 := by
  have h := runFold_error_lines step stage pb ps lines ⟨-1, [], [], []⟩ [] (by simp)
  simpa [run_cmd_stream] using h

theorem run_success_iff (step : Int) (stage : String) (pb ps : Int)
    (lines : List String) (rc : Int) :
    (run_cmd_stream step stage pb ps lines rc).success = true ↔
      rc = 0 ∧ (run_cmd_stream step stage pb ps lines rc).error_lines = [] := by
  simp [run_cmd_stream, List.isEmpty_iff]

theorem run_hint_eq (step : Int) (stage : String) (pb ps : Int)
    (lines : List String) (rc : Int) :
    (run_cmd_stream step stage pb ps lines rc).hint
      = (if (run_cmd_stream step stage pb ps lines rc).error_lines.isEmpty then none
         else some (String.intercalate "; "
           (run_cmd_stream step stage pb ps lines rc).error_lines)) := by
  simp [run_cmd_stream]

/-! ## Lemmas about subscriber channels -/

theorem deliver_not_full (c : Nat) (b : List α) (x : α) (h : b.length < c) :
    deliver (Chan.mk c b) x = Chan.mk c (b ++ [x]) := by
  simp [deliver, put_nowait, h]

theorem deliver_cap_zero (b : List α) (x : α) :
    deliver (Chan.mk 0 b) x = Chan.mk 0 (b.drop 1) := by
  cases b with
  | nil => simp [deliver, put_nowait, get_nowait]
  | cons y ys => simp [deliver, put_nowait, get_nowait]

theorem deliver_full (c : Nat) (h : α) (t : List α) (x : α)
    (hlen : t.length + 1 = c) :
    deliver (Chan.mk c (h :: t)) x = Chan.mk c (t ++ [x]) := by
  have h1 : ¬ (t.length + 1 < c) := by omega
  have h2 : t.length < c := by omega
  simp [deliver, put_nowait, get_nowait, h1, h2]

/-- Drop-oldest invariant: starting from a queue whose buffer fits the
capacity, delivering a sequence leaves exactly the newest `cap` elements
(of the old buffer followed by the sequence), in order. -/
theorem deliverAll_buf (c : Nat) :
    ∀ (xs : List α) (b : List α), b.length ≤ c →
      (deliverAll (Chan.mk c b) xs).buf = (b ++ xs).drop (b.length + xs.length - c) := by
  intro xs
  induction xs with
  | nil =>
    intro b hb
    simp [deliverAll, Nat.sub_eq_zero_of_le hb]
  | cons x rest ih =>
    intro b hb
    have hfold : deliverAll (Chan.mk c b) (x :: rest)
        = deliverAll (deliver (Chan.mk c b) x) rest := rfl
    by_cases hlt : b.length < c
    · rw [hfold, deliver_not_full c b x hlt]
      rw [ih (b ++ [x]) (by simp; omega)]
      have e1 : (b ++ [x]) ++ rest = b ++ (x :: rest) := by simp
      have i1 : (b ++ [x]).length + rest.length - c
          = b.length + (x :: rest).length - c := by simp; omega
      rw [i1, e1]
    · have hbc : b.length = c := by omega
      cases b with
      | nil =>
        have hc0 : c = 0 := by simpa using hbc.symm
        subst hc0
        rw [hfold, deliver_cap_zero [] x]
        simp only [List.drop_nil]
        rw [ih [] (by simp)]
        simp [List.drop_succ_cons, List.drop_length]
      | cons h t =>
        have hbc' : t.length + 1 = c := by simpa using hbc
        rw [hfold, deliver_full c h t x hbc']
        rw [ih (t ++ [x]) (by simp; omega)]
        have e1 : (t ++ [x]) ++ rest = t ++ (x :: rest) := by simp
        have e2 : (h :: t) ++ (x :: rest) = h :: (t ++ (x :: rest)) := by simp
        have i1 : (t ++ [x]).length + rest.length - c = rest.length := by
          simp
          omega
        have i2 : (h :: t).length + (x :: rest).length - c = rest.length + 1 := by
          simp
          omega
        rw [i1, i2, e1, e2, List.drop_succ_cons]

/-! ## Lemmas about the candidate loop -/

theorem mem_clear_workdir {d : Dir} {e : Entry} (h : e ∈ clear_workdir d) :
    pdfOnly e := by
  unfold clear_workdir at h
  obtain ⟨-, hp⟩ := List.mem_filter.mp h
  simp only [Bool.and_eq_true, decide_eq_true_eq, Bool.not_eq_true'] at hp
  exact ⟨hp.1.1, hp.1.2, hp.2⟩

theorem run_attempts_idx (tool : Tool) (step : Int) (stem : String) (n : Nat) :
    ∀ (cmds : List (List String)) (i : Nat) (d : Dir) (l : String),
      (run_attempts tool step stem n i cmds d l).trace.map Attempt.idx
        = List.range' i (run_attempts tool step stem n i cmds d l).trace.length := by
  intro cmds
  induction cmds with
  | nil => intro i d l; simp [run_attempts]
  | cons cmd rest ih =>
    intro i d l
    simp only [run_attempts]
    split
    · simp [List.range']
    · simp only [List.map_cons, List.length_cons, List.range'_succ]
      exact congrArg (List.cons i) (ih (i + 1) _ _)

theorem run_attempts_len (tool : Tool) (step : Int) (stem : String) (n : Nat) :
    ∀ (cmds : List (List String)) (i : Nat) (d : Dir) (l : String),
      (run_attempts tool step stem n i cmds d l).trace.length ≤ cmds.length := by
  intro cmds
  induction cmds with
  | nil => intro i d l; simp [run_attempts]
  | cons cmd rest ih =>
    intro i d l
    simp only [run_attempts]
    split
    · simp
    · simp only [List.length_cons, Nat.add_le_add_iff_right]
      exact ih (i + 1) _ _

theorem run_attempts_clean (tool : Tool) (step : Int) (stem : String) (n : Nat) :
    ∀ (cmds : List (List String)) (i : Nat) (d : Dir) (l : String),
      ∀ a ∈ (run_attempts tool step stem n i cmds d l).trace,
        ∀ e ∈ a.dir_in, pdfOnly e := by
  intro cmds
  induction cmds with
  | nil => intro i d l; simp [run_attempts]
  | cons cmd rest ih =>
    intro i d l a ha
    simp only [run_attempts] at ha
    split at ha
    · simp only [List.mem_singleton] at ha
      subst ha
      intro e he
      exact mem_clear_workdir he
    · simp only [List.mem_cons] at ha
      rcases ha with ha | ha
      · subst ha
        intro e he
        exact mem_clear_workdir he
      · exact ih (i + 1) _ _ a ha

theorem and_false_cases {p q : Bool} (h : ¬ (p && q) = true) :
    p = false ∨ q = false := by
  cases p <;> cases q <;> simp_all

theorem run_attempts_stops (tool : Tool) (step : Int) (stem : String) (n : Nat) :
    ∀ (cmds : List (List String)) (i : Nat) (d : Dir) (l : String),
      ∀ a ∈ (run_attempts tool step stem n i cmds d l).trace.dropLast,
        a.cmd_ok = false ∨ a.md_found = false := by
  intro cmds
  induction cmds with
  | nil => intro i d l; simp [run_attempts]
  | cons cmd rest ih =>
    intro i d l a ha
    simp only [run_attempts] at ha
    split at ha
    · simp at ha
    · rename_i hcond
      have hfail := and_false_cases hcond
      simp only [] at ha
      cases htr : (run_attempts tool step stem n (i + 1) rest
          (tool i (clear_workdir d)).2.2
          (run_cmd_stream step "convert" 5 80 (tool i (clear_workdir d)).1
            (tool i (clear_workdir d)).2.1).full_log).trace with
      | nil => rw [htr] at ha; simp at ha
      | cons y ys =>
        rw [htr] at ha
        rw [List.dropLast_cons₂] at ha
        rcases List.mem_cons.mp ha with ha | ha
        · subst ha
          simpa using hfail
        · have hih := ih (i + 1) ((tool i (clear_workdir d)).2.2)
            ((run_cmd_stream step "convert" 5 80 (tool i (clear_workdir d)).1
              (tool i (clear_workdir d)).2.1).full_log) a
          rw [htr] at hih
          exact hih ha

theorem run_attempts_events (tool : Tool) (step : Int) (stem : String) (n : Nat) :
    ∀ (cmds : List (List String)) (i : Nat) (d : Dir) (l : String),
      ∀ e ∈ (run_attempts tool step stem n i cmds d l).events,
        e.etype = "log" ∧ e.stage = some "convert" ∧ e.ok = none ∧
          ∀ p, e.percent = some p → 0 ≤ p ∧ p ≤ 99 := by
  intro cmds
  induction cmds with
  | nil => intro i d l; simp [run_attempts]
  | cons cmd rest ih =>
    intro i d l e he
    simp only [run_attempts] at he
    split at he
    · simp only [] at he
      rcases List.mem_cons.mp he with he | he
      · subst he
        exact ⟨rfl, rfl, rfl, fun p hp => by simp [attemptEvent, logEvent] at hp⟩
      · exact ⟨(run_events_spec _ _ _ _ _ _ e he).1.1,
          (run_events_spec _ _ _ _ _ _ e he).1.2.1,
          (run_events_spec _ _ _ _ _ _ e he).1.2.2.1,
          fun p hp => run_events_percent_bound _ _ _ _ _ _ e he p hp⟩
    · simp only [] at he
      rcases List.mem_append.mp he with he | he
      · rcases List.mem_cons.mp he with he | he
        · subst he
          exact ⟨rfl, rfl, rfl, fun p hp => by simp [attemptEvent, logEvent] at hp⟩
        · exact ⟨(run_events_spec _ _ _ _ _ _ e he).1.1,
            (run_events_spec _ _ _ _ _ _ e he).1.2.1,
            (run_events_spec _ _ _ _ _ _ e he).1.2.2.1,
            fun p hp => run_events_percent_bound _ _ _ _ _ _ e he p hp⟩
      · exact ih (i + 1) _ _ e he

theorem run_attempts_ok_iff (tool : Tool) (step : Int) (stem : String) (n : Nat) :
    ∀ (cmds : List (List String)) (i : Nat) (d : Dir) (l : String),
      (run_attempts tool step stem n i cmds d l).ok = true ↔
        ∃ a, (run_attempts tool step stem n i cmds d l).trace.getLast? = some a ∧
          a.cmd_ok = true ∧ a.md_found = true := by
  intro cmds
  induction cmds with
  | nil => intro i d l; simp [run_attempts]
  | cons cmd rest ih =>
    intro i d l
    simp only [run_attempts]
    split
    · rename_i hcond
      rw [Bool.and_eq_true] at hcond
      simp only []
      constructor
      · intro _
        exact ⟨_, List.getLast?_singleton _, hcond.1, hcond.2⟩
      · intro _
        trivial
    · rename_i hcond
      have hfail := and_false_cases hcond
      simp only []
      cases htr : (run_attempts tool step stem n (i + 1) rest
          (tool i (clear_workdir d)).2.2
          (run_cmd_stream step "convert" 5 80 (tool i (clear_workdir d)).1
            (tool i (clear_workdir d)).2.1).full_log).trace with
      | nil =>
        have hih := ih (i + 1) ((tool i (clear_workdir d)).2.2)
          ((run_cmd_stream step "convert" 5 80 (tool i (clear_workdir d)).1
            (tool i (clear_workdir d)).2.1).full_log)
        rw [htr] at hih
        constructor
        · intro h
          obtain ⟨a, ha, -⟩ := hih.mp h
          simp at ha
        · rintro ⟨a, ha, hok, hmd⟩
          simp only [List.getLast?_singleton, Option.some.injEq] at ha
          subst ha
          rcases hfail with hf | hf
          · rw [hf] at hok
            exact absurd hok (by simp)
          · rw [hf] at hmd
            exact absurd hmd (by simp)
      | cons y ys =>
        have hih := ih (i + 1) ((tool i (clear_workdir d)).2.2)
          ((run_cmd_stream step "convert" 5 80 (tool i (clear_workdir d)).1
            (tool i (clear_workdir d)).2.1).full_log)
        rw [htr] at hih
        rw [List.getLast?_cons_cons]
        exact hih

theorem run_attempts_faillog (tool : Tool) (step : Int) (stem : String) (n : Nat) :
    ∀ (cmds : List (List String)) (i : Nat) (d : Dir) (l : String),
      (run_attempts tool step stem n i cmds d l).ok = false →
      (run_attempts tool step stem n i cmds d l).last_error_log
        = (((run_attempts tool step stem n i cmds d l).trace.getLast?).map
            Attempt.full_log).getD l := by
  intro cmds
  induction cmds with
  | nil => intro i d l _; simp [run_attempts]
  | cons cmd rest ih =>
    intro i d l h
    simp only [run_attempts] at h ⊢
    split at h
    · simp only [] at h
      exact absurd h (by simp)
    · rename_i hcond
      rw [if_neg hcond]
      simp only [] at h ⊢
      have hih := ih (i + 1) ((tool i (clear_workdir d)).2.2)
        ((run_cmd_stream step "convert" 5 80 (tool i (clear_workdir d)).1
          (tool i (clear_workdir d)).2.1).full_log) h
      cases htr : (run_attempts tool step stem n (i + 1) rest
          (tool i (clear_workdir d)).2.2
          (run_cmd_stream step "convert" 5 80 (tool i (clear_workdir d)).1
            (tool i (clear_workdir d)).2.1).full_log).trace with
      | nil =>
        rw [htr] at hih
        simp only [List.getLast?_nil, Option.map_none, Option.getD_none] at hih
        simp only [List.getLast?_singleton, Option.map_some, Option.getD_some]
        exact hih
      | cons y ys =>
        rw [htr] at hih
        rw [List.getLast?_cons_cons]
        cases hgl : (y :: ys).getLast? with
        | none =>
          rw [List.getLast?_eq_none_iff] at hgl
          exact absurd hgl (by simp)
        | some a =>
          rw [hgl] at hih
          simpa using hih

theorem run_attempts_succlog (tool : Tool) (step : Int) (stem : String) (n : Nat) :
    ∀ (cmds : List (List String)) (i : Nat) (d : Dir) (l : String),
      (run_attempts tool step stem n i cmds d l).ok = true →
      ∃ a, (run_attempts tool step stem n i cmds d l).trace.getLast? = some a ∧
        (run_attempts tool step stem n i cmds d l).success_log = a.full_log ∧
        (search_md (run_attempts tool step stem n i cmds d l).dir stem).isSome = true := by
  intro cmds
  induction cmds with
  | nil => intro i d l h; simp [run_attempts] at h
  | cons cmd rest ih =>
    intro i d l h
    simp only [run_attempts] at h ⊢
    split at h
    · rename_i hcond
      rw [Bool.and_eq_true] at hcond
      rw [if_pos (by rw [Bool.and_eq_true]; exact hcond)]
      simp only []
      exact ⟨_, List.getLast?_singleton _, rfl, hcond.2⟩
    · rename_i hcond
      rw [if_neg hcond]
      simp only [] at h ⊢
      obtain ⟨a, hga, hsl, hmd⟩ := ih (i + 1) ((tool i (clear_workdir d)).2.2)
        ((run_cmd_stream step "convert" 5 80 (tool i (clear_workdir d)).1
          (tool i (clear_workdir d)).2.1).full_log) h
      refine ⟨a, ?_, hsl, hmd⟩
      cases htr : (run_attempts tool step stem n (i + 1) rest
          (tool i (clear_workdir d)).2.2
          (run_cmd_stream step "convert" 5 80 (tool i (clear_workdir d)).1
            (tool i (clear_workdir d)).2.1).full_log).trace with
      | nil => rw [htr] at hga; simp at hga
      | cons y ys =>
        rw [htr] at hga
        rw [List.getLast?_cons_cons]
        exact hga

theorem run_attempts_fail_len (tool : Tool) (step : Int) (stem : String) (n : Nat) :
    ∀ (cmds : List (List String)) (i : Nat) (d : Dir) (l : String),
      (run_attempts tool step stem n i cmds d l).ok = false →
      (run_attempts tool step stem n i cmds d l).trace.length = cmds.length := by
  intro cmds
  induction cmds with
  | nil => intro i d l _; simp [run_attempts]
  | cons cmd rest ih =>
    intro i d l h
    simp only [run_attempts] at h ⊢
    split at h
    · simp only [] at h
      exact absurd h (by simp)
    · rename_i hcond
      rw [if_neg hcond]
      simp only [List.length_cons]
      exact congrArg (· + 1) (ih (i + 1) _ _ (by simpa using h))

/-! ## Lemmas about the registry, the orchestrator wrapper and the sweeper -/

theorem perform_cleanup_spec (now ttl : Int) :
    ∀ (items : List TopItem) (reg : Registry),
      (perform_cleanup now ttl items reg).1
          = items.filter (fun it => !sweepDeletes now ttl it) ∧
        (perform_cleanup now ttl items reg).2
          = reg.filter (fun p =>
              !(items.any fun it => sweepDeletes now ttl it && decide (p.1 = it.name))) := by
  intro items
  induction items with
  | nil =>
    intro reg
    refine ⟨rfl, ?_⟩
    simp [perform_cleanup]
  | cons it rest ih =>
    intro reg
    by_cases hd : sweepDeletes now ttl it = true
    · have hrec := ih (reg.filter fun p => decide (p.1 ≠ it.name))
      constructor
      · simp only [perform_cleanup, hd, if_true, List.filter_cons]
        rw [hrec.1]
        simp [hd]
      · simp only [perform_cleanup, hd, if_true]
        rw [hrec.2, List.filter_filter]
        apply List.filter_congr
        intro a _
        by_cases hne : a.1 = it.name
        · simp [hne, hd]
        · simp [hne, hd]
    · have hd' : sweepDeletes now ttl it = false := by
        revert hd
        cases sweepDeletes now ttl it <;> simp
      have hrec := ih reg
      constructor
      · simp only [perform_cleanup, hd', if_false, List.filter_cons]
        simp only [hd', Bool.not_false, if_true]
        rw [← hrec.1]
        simp [perform_cleanup, hd']
      · simp only [perform_cleanup, hd']
        simp only [Bool.false_eq_true, if_false]
        rw [hrec.2]
        apply List.filter_congr
        intro a _
        simp [hd']

theorem convert_job_trace (tool : Tool) (step : Int) (cmds : List (List String))
    (stem pdf_name : String) (dmd : Option (List String)) (d0 : Dir) :
    (convert_job tool step cmds stem pdf_name dmd d0).trace
      = (run_attempts tool step stem cmds.length 0 cmds d0 "").trace := by
  simp only [convert_job]
  split
  · split <;> rfl
  · rfl

theorem convert_job_loop_ok (tool : Tool) (step : Int) (cmds : List (List String))
    (stem pdf_name : String) (dmd : Option (List String)) (d0 : Dir) :
    (convert_job tool step cmds stem pdf_name dmd d0).loop_ok
      = (run_attempts tool step stem cmds.length 0 cmds d0 "").ok := by
  simp only [convert_job]
  split
  · rename_i h
    split <;> simp [h]
  · rename_i h
    simp only []
    exact ((Bool.not_eq_true _) ▸ h : _ = false).symm

/-- The orchestrator's event list is always the three pre-loop events, the
loop's events, and one of three tails: a lone terminal error event, a
`collect_output` progress followed by the terminal done event, or (when the
re-probe after a successful loop finds nothing, including in the temp
fallback) a lone `collect_output` progress. -/
theorem convert_job_events_cases (tool : Tool) (step : Int)
    (cmds : List (List String)) (stem pdf_name : String)
    (dmd : Option (List String)) (d0 : Dir) :
    ∃ tail,
      (convert_job tool step cmds stem pdf_name dmd d0).events
        = preEvents pdf_name
            ++ (run_attempts tool step stem cmds.length 0 cmds d0 "").events
            ++ tail ∧
      (tail = [errorEvent (classify_error
          (run_attempts tool step stem cmds.length 0 cmds d0 "").last_error_log)] ∨
        tail = [progressEvent "collect_output" 90 none,
          doneEvent (pathStr [stem ++ ".md"])] ∨
        tail = [progressEvent "collect_output" 90 none]) := by
  simp only [convert_job]
  split
  · split
    · exact ⟨_, rfl, Or.inr (Or.inl rfl)⟩
    · exact ⟨_, rfl, Or.inr (Or.inr rfl)⟩
  · exact ⟨_, rfl, Or.inl rfl⟩

/-- No pre-loop or loop event is terminal or carries a non-null outcome. -/
theorem nonterm_pre_loop (tool : Tool) (step : Int) (stem : String) (n : Nat)
    (cmds : List (List String)) (i : Nat) (d : Dir) (l : String)
    (pdf_name : String) (e : Event)
    (he : e ∈ preEvents pdf_name ++ (run_attempts tool step stem n i cmds d l).events) :
    e.stage ≠ some "done" ∧ e.stage ≠ some "error" ∧
      ∀ b : Bool, e.ok ≠ some (some b) := by
  rcases List.mem_append.mp he with he | he
  · simp only [preEvents, List.mem_cons, List.not_mem_nil, or_false] at he
    rcases he with rfl | rfl | rfl
    · exact ⟨by simp [progressEvent], by simp [progressEvent],
        fun b => by simp [progressEvent]⟩
    · exact ⟨by simp [logEvent], by simp [logEvent], fun b => by simp [logEvent]⟩
    · exact ⟨by simp [progressEvent], by simp [progressEvent],
        fun b => by simp [progressEvent]⟩
  · obtain ⟨-, hstg, hok, -⟩ := run_attempts_events tool step stem n cmds i d l e he
    exact ⟨by rw [hstg]; simp, by rw [hstg]; simp, fun b => by rw [hok]; simp⟩

/-! ## Claim theorems -/

/-- C1 (counterexample): two failures of the claim as stated, at concrete
inputs.  First, for the line `"Processing... 42%"` with `percentBase = 5,
percentSpan = 80` the published percent is 38 (Python truncation of
`0.42 * 80 = 33.6` to 33), not the claimed `5 + round(0.42 * 80) = 39`.
Second, the claim's "for every output line containing a percentage token
the runner publishes the job-global percent" is also false: repeating the
same line yields a second event with no percent at all (the step gate at
`jobs.py` line 115 suppresses it), so not every token-bearing line has a
percent published. -/
theorem C1_percent_mapping_cex :
    ((run_cmd_stream 1 "convert" 5 80 ["Processing... 42%"] 0).events.map
        Event.percent = [some 38] ∧
      (some (38 : Int) ≠ some (39 : Int))) ∧
    (run_cmd_stream 1 "convert" 5 80
        ["Processing... 42%", "Processing... 42%"] 0).events.map
        Event.percent = [some 38, none] := by
  refine ⟨⟨by decide, by decide⟩, by decide⟩

/-- C1 (amended): for every output line bearing a percentage token `p`, the
runner publishes exactly one log event for it; writing
`mapped = max 0 (min 99 (percentBase + (p * percentSpan) / 100))` —
truncating division, not rounding — the event carries percent `mapped`
when `mapped` has advanced by at least `step` over the last sent value,
and no percent otherwise (first conjunct, with the run on `lines` giving
the state just before the token line; the second conjunct shows a run's
events only grow as the transcript extends, so this describes any line's
position in a longer transcript).  Moreover every percent any runner event
carries is of that `mapped` form for some transcript line (third
conjunct); in particular `"Processing... 42%"` with `percentBase = 5,
percentSpan = 80` publishes percent 38, and its immediate repetition is
published without a percent (fourth conjunct). -/
theorem C1_percent_mapping :
    (∀ (step pb ps : Int) (lines : List String) (line : String) (rc : Int)
        (pctN : Nat),
      searchPct (rstripCRLF line).toList = some pctN →
      (run_cmd_stream step "convert" pb ps (lines ++ [line]) rc).events
        = (run_cmd_stream step "convert" pb ps lines rc).events
          ++ [logEvent "INFO" "convert" (rstripCRLF line)
              (if step ≤ max 0 (min 99 (pb + Int.tdiv (Int.ofNat pctN * ps) 100))
                    - (run_cmd_stream step "convert" pb ps lines rc).last_sent
               then some (max 0 (min 99 (pb + Int.tdiv (Int.ofNat pctN * ps) 100)))
               else none)]) ∧
    (∀ (step pb ps : Int) (lines rest : List String) (rc : Int),
      ∃ tail, (run_cmd_stream step "convert" pb ps (lines ++ rest) rc).events
        = (run_cmd_stream step "convert" pb ps lines rc).events ++ tail) ∧
    (∀ (step pb ps : Int) (lines : List String) (rc : Int),
      ∀ e ∈ (run_cmd_stream step "convert" pb ps lines rc).events,
      ∀ p, e.percent = some p → ∃ line, line ∈ lines ∧ ∃ pctN,
        searchPct (rstripCRLF line).toList = some pctN ∧
        p = max 0 (min 99 (pb + Int.tdiv (Int.ofNat pctN * ps) 100))) ∧
    ((run_cmd_stream 1 "convert" 5 80 ["Processing... 42%"] 0).events.map
        Event.percent = [some 38] ∧
      (run_cmd_stream 1 "convert" 5 80
        ["Processing... 42%", "Processing... 42%"] 0).events.map
        Event.percent = [some 38, none]) := by
  refine ⟨?_, ?_, ?_, by decide, by decide⟩
  · intro step pb ps lines line rc pctN hm
    have h := procLine_pct_step step "convert" pb ps
      (lines.foldl (procLine step "convert" pb ps) ⟨-1, [], [], []⟩) line pctN hm
    simp only [run_cmd_stream, List.foldl_append, List.foldl_cons, List.foldl_nil]
    exact h.1
  · intro step pb ps lines rest rc
    obtain ⟨tail, htail⟩ := runFold_events_mono step "convert" pb ps rest
      (lines.foldl (procLine step "convert" pb ps) ⟨-1, [], [], []⟩)
    refine ⟨tail, ?_⟩
    simp only [run_cmd_stream, List.foldl_append]
    exact htail
  · intro step pb ps lines rc e he p hp
    obtain ⟨-, l, hl, hpf⟩ := run_events_spec step "convert" pb ps lines rc e he
    obtain ⟨n, hn, hEq⟩ := hpf p hp
    exact ⟨l, hl, n, hn, hEq⟩

/-- C1 witness: the per-line publication rule instantiated on the spec's own
transcript — the token line appended to the empty transcript publishes one
event whose percent is determined by the step gate (here passing, giving
38). -/
theorem C1_percent_mapping_witness :
    (run_cmd_stream 1 "convert" 5 80 ([] ++ ["Processing... 42%"]) 0).events
      = (run_cmd_stream 1 "convert" 5 80 [] 0).events
        ++ [logEvent "INFO" "convert" (rstripCRLF "Processing... 42%")
            (if (1 : Int) ≤ max 0 (min 99 (5 + Int.tdiv (Int.ofNat 42 * 80) 100))
                  - (run_cmd_stream 1 "convert" 5 80 [] 0).last_sent
             then some (max 0 (min 99 (5 + Int.tdiv (Int.ofNat 42 * 80) 100)))
             else none)] :=
  C1_percent_mapping.1 1 5 80 [] "Processing... 42%" 0 42 (by decide)

/-- C2 (counterexample): `publish_event` applies `stage` and `ok` updates
unconditionally, so a terminal state is not sticky at the registry: after a
`done` event sets `stage = "done", ok = some true`, a further `convert`
progress event overwrites the stage and clears the outcome. -/
theorem C2_terminal_sticky_cex :
    ((publish_event "j" (doneEvent "a.md") [("j", cexJob)]).map
        (fun pr => (pr.2.stage, pr.2.ok))) = [("done", some true)] ∧
    ((publish_event "j" (progressEvent "convert" 50 none)
        (publish_event "j" (doneEvent "a.md") [("j", cexJob)])).map
        (fun pr => (pr.2.stage, pr.2.ok))) = [("convert", none)] ∧
    ("convert" ≠ "done") ∧ ((none : Option Bool) ≠ some true) := by
  refine ⟨by decide, by decide, by decide, by decide⟩

/-- C2 (amended): the registry applies any update it is given, but the
orchestrator publishes a terminal payload only in last position: every
event before the last of a `_convert_job` run has a non-terminal stage and
a null outcome, so within these sequences `stage`/`ok` never change after a
terminal event and the outcome is set (non-null) at most once. -/
theorem C2_terminal_only_last (tool : Tool) (step : Int)
    (cmds : List (List String)) (stem pdf_name : String)
    (dmd : Option (List String)) (d0 : Dir) :
    ∀ e ∈ (convert_job tool step cmds stem pdf_name dmd d0).events.dropLast,
      e.stage ≠ some "done" ∧ e.stage ≠ some "error" ∧
        ∀ b : Bool, e.ok ≠ some (some b) := by
  obtain ⟨tail, hev, htail⟩ :=
    convert_job_events_cases tool step cmds stem pdf_name dmd d0
  intro e he
  rw [hev] at he
  rcases htail with rfl | rfl | rfl
  · rw [List.dropLast_concat] at he
    exact nonterm_pre_loop tool step stem cmds.length cmds 0 d0 "" pdf_name e he
  · rw [show (preEvents pdf_name
          ++ (run_attempts tool step stem cmds.length 0 cmds d0 "").events
          ++ [progressEvent "collect_output" 90 none,
              doneEvent (pathStr [stem ++ ".md"])])
        = ((preEvents pdf_name
            ++ (run_attempts tool step stem cmds.length 0 cmds d0 "").events
            ++ [progressEvent "collect_output" 90 none]))
          ++ [doneEvent (pathStr [stem ++ ".md"])] by simp] at he
    rw [List.dropLast_concat] at he
    rcases List.mem_append.mp he with he | he
    · exact nonterm_pre_loop tool step stem cmds.length cmds 0 d0 "" pdf_name e he
    · simp only [List.mem_singleton] at he
      subst he
      exact ⟨by simp [progressEvent], by simp [progressEvent],
        fun b => by simp [progressEvent]⟩
  · rw [List.dropLast_concat] at he
    exact nonterm_pre_loop tool step stem cmds.length cmds 0 d0 "" pdf_name e he

/-- C2 witness: the amended statement at a concrete failing run, on the
first published event. -/
theorem C2_terminal_only_last_witness :
    (progressEvent "prepare" 1 none).stage ≠ some "done" ∧
      (progressEvent "prepare" 1 none).stage ≠ some "error" ∧
      ∀ b : Bool, (progressEvent "prepare" 1 none).ok ≠ some (some b) :=
  C2_terminal_only_last toolFailW 1 [["mineru"]] "r" "r.pdf" none [wPdf]
    (progressEvent "prepare" 1 none) (by decide)

/-- C3: every percent published during a job run lies in `[0, 100]`; every
percent attached to a Process Runner log event lies in `[0, 99]`; and any
terminal (`done` or `error`) event carries exactly `percent = 100`. -/
theorem C3_percent_bounds (tool : Tool) (step : Int)
    (cmds : List (List String)) (stem pdf_name : String)
    (dmd : Option (List String)) (d0 : Dir) (e : Event)
    (he : e ∈ (convert_job tool step cmds stem pdf_name dmd d0).events) :
    (∀ p, e.percent = some p → 0 ≤ p ∧ p ≤ 100) ∧
    (e.etype = "log" → ∀ p, e.percent = some p → p ≤ 99) ∧
    ((e.stage = some "done" ∨ e.stage = some "error") → e.percent = some 100) := by
  obtain ⟨tail, hev, htail⟩ :=
    convert_job_events_cases tool step cmds stem pdf_name dmd d0
  rw [hev] at he
  rcases List.mem_append.mp he with he1 | heT
  · rcases List.mem_append.mp he1 with heP | heL
    · simp only [preEvents, List.mem_cons, List.not_mem_nil, or_false] at heP
      rcases heP with rfl | rfl | rfl
      · exact ⟨fun p hp => by simp [progressEvent] at hp; omega,
          fun het => by simp [progressEvent] at het,
          fun hst => by rcases hst with h | h <;> simp [progressEvent] at h⟩
      · exact ⟨fun p hp => by simp [logEvent] at hp,
          fun _ p hp => by simp [logEvent] at hp,
          fun hst => by rcases hst with h | h <;> simp [logEvent] at h⟩
      · exact ⟨fun p hp => by simp [progressEvent] at hp; omega,
          fun het => by simp [progressEvent] at het,
          fun hst => by rcases hst with h | h <;> simp [progressEvent] at h⟩
    · obtain ⟨-, hstg, -, hbd⟩ :=
        run_attempts_events tool step stem cmds.length cmds 0 d0 "" e heL
      refine ⟨fun p hp => ⟨(hbd p hp).1, le_trans (hbd p hp).2 (by norm_num)⟩,
        fun _ p hp => (hbd p hp).2, fun hst => ?_⟩
      rcases hst with h | h <;> rw [hstg] at h <;> simp at h
  · rcases htail with rfl | rfl | rfl
    · simp only [List.mem_singleton] at heT
      subst heT
      exact ⟨fun p hp => by simp [errorEvent] at hp; omega,
        fun het => by simp [errorEvent] at het,
        fun _ => by simp [errorEvent]⟩
    · simp only [List.mem_cons, List.not_mem_nil, or_false] at heT
      rcases heT with rfl | rfl
      · exact ⟨fun p hp => by simp [progressEvent] at hp; omega,
          fun het => by simp [progressEvent] at het,
          fun hst => by rcases hst with h | h <;> simp [progressEvent] at h⟩
      · exact ⟨fun p hp => by simp [doneEvent] at hp; omega,
          fun het => by simp [doneEvent] at het,
          fun _ => by simp [doneEvent]⟩
    · simp only [List.mem_singleton] at heT
      subst heT
      exact ⟨fun p hp => by simp [progressEvent] at hp; omega,
        fun het => by simp [progressEvent] at het,
        fun hst => by rcases hst with h | h <;> simp [progressEvent] at h⟩

/-- C3 witness: the bounds at a concrete run, on the terminal error event
published by a failing job. -/
theorem C3_percent_bounds_witness :
    (∀ p, (errorEvent (classify_error "RuntimeError: boom")).percent = some p →
      0 ≤ p ∧ p ≤ 100) ∧
    ((errorEvent (classify_error "RuntimeError: boom")).etype = "log" →
      ∀ p, (errorEvent (classify_error "RuntimeError: boom")).percent = some p →
        p ≤ 99) ∧
    (((errorEvent (classify_error "RuntimeError: boom")).stage = some "done" ∨
        (errorEvent (classify_error "RuntimeError: boom")).stage = some "error") →
      (errorEvent (classify_error "RuntimeError: boom")).percent = some 100) :=
  C3_percent_bounds toolFailW 1 [["mineru"]] "r" "r.pdf" none [wPdf]
    (errorEvent (classify_error "RuntimeError: boom")) (by decide)

/-- C4: the runner reports success exactly when the exit code is 0 and no
error-signature line was recorded (exit 0 with such lines is still a
failure); the retained lines are precisely the first 10 marker-bearing
transcript lines verbatim, so at most 10 are kept; and the hint is the
`"; "`-join of the retained lines when any exist, else null. -/
theorem C4_runner_completion (step : Int) (stage : String) (pb ps : Int)
    (lines : List String) (rc : Int) :
    ((run_cmd_stream step stage pb ps lines rc).success = true ↔
      (rc = 0 ∧ (run_cmd_stream step stage pb ps lines rc).error_lines = [])) ∧
    (run_cmd_stream step stage pb ps lines rc).error_lines
      = ((lines.map rstripCRLF).filter hasMarker).take 10 ∧
    (run_cmd_stream step stage pb ps lines rc).error_lines.length ≤ 10 ∧
    (run_cmd_stream step stage pb ps lines rc).hint
      = (if (run_cmd_stream step stage pb ps lines rc).error_lines.isEmpty then none
         else some (String.intercalate "; "
           (run_cmd_stream step stage pb ps lines rc).error_lines)) :=
  ⟨run_success_iff step stage pb ps lines rc,
   run_error_lines_eq step stage pb ps lines rc,
   by rw [run_error_lines_eq]; exact List.length_take_le 10 _,
   run_hint_eq step stage pb ps lines rc⟩

/-- C5: subscriber channels drop the oldest element under backpressure:
delivering any sequence into an empty channel of capacity `c` leaves
exactly the newest `c` elements in publish order (so 1001 events into a
capacity-1000 channel leave events 2..1001, `xs.drop 1`); delivery fans out
to each subscriber channel independently; and when even the drop-and-retry
cannot make room (capacity 0), the event is dropped without error and
without touching anything else. -/
theorem C5_drop_oldest :
    (∀ (xs : List Nat), (deliverAll (Chan.mk 1000 []) xs).buf
        = xs.drop (xs.length - 1000)) ∧
    (∀ (c : Nat) (xs : List Nat), (deliverAll (Chan.mk c []) xs).buf
        = xs.drop (xs.length - c)) ∧
    (∀ (st : JobState) (e : Event),
      (applyEvent st e).subscribers = st.subscribers.map fun q => deliver q e) ∧
    (∀ (x : Nat), deliver (Chan.mk 0 []) x = Chan.mk 0 []) := by
  refine ⟨fun xs => ?_, fun c xs => ?_, fun st e => rfl, fun x => ?_⟩
  · simpa using deliverAll_buf 1000 xs [] (by simp)
  · simpa using deliverAll_buf c xs [] (by simp)
  · simpa using deliver_cap_zero ([] : List Nat) x

/-- C9: the sweep keeps exactly the items that are not expired deletable job
directories, removes exactly the registry entries of the directories it
deleted, and — deletion failures being per-item — a failing item never
stops later items from being handled; for a job directory whose deletion
does not fail, it survives the sweep exactly when its age is within the
TTL. -/
theorem C9_sweep (now ttl : Int) (items : List TopItem) (reg : Registry) :
    (perform_cleanup now ttl items reg).1
        = items.filter (fun it => !sweepDeletes now ttl it) ∧
    (perform_cleanup now ttl items reg).2
        = reg.filter (fun p =>
            !(items.any fun it => sweepDeletes now ttl it && decide (p.1 = it.name))) ∧
    (∀ it ∈ items, it.isDir = true → it.name ≠ "logs" → it.rm_fails = false →
      (it ∈ (perform_cleanup now ttl items reg).1 ↔ now - it.mtime ≤ ttl)) := by
  obtain ⟨h1, h2⟩ := perform_cleanup_spec now ttl items reg
  refine ⟨h1, h2, ?_⟩
  intro it hit hdir hlogs hfails
  have hsd : sweepDeletes now ttl it = decide (ttl < now - it.mtime) := by
    unfold sweepDeletes
    rw [hdir, hfails]
    simp [hlogs]
  rw [h1, List.mem_filter]
  constructor
  · rintro ⟨-, hkeep⟩
    rw [hsd] at hkeep
    simp only [Bool.not_eq_true', decide_eq_false_iff_not, not_lt] at hkeep
    exact hkeep
  · intro hle
    refine ⟨hit, ?_⟩
    have hnl : ¬ (ttl < now - it.mtime) := not_lt.mpr hle
    simp [hsd, hnl]

/-- C9 witness: sweeping at `now = 100` with TTL 0 keeps the directory whose
mtime is 100 (age 0). -/
theorem C9_sweep_witness :
    wItemNew ∈ (perform_cleanup 100 0 [wItemOld, wItemNew]
        [("job1", cexJob), ("job2", cexJob)]).1 ↔ (100 : Int) - 100 ≤ 0 :=
  (C9_sweep 100 0 [wItemOld, wItemNew] [("job1", cexJob), ("job2", cexJob)]).2.2
    wItemNew (by decide) (by decide) (by decide) (by decide)

/-- C10: publishing an event for a job id absent from the registry is a
silent no-op: the registry (hence every job state and every subscriber
channel inside it) is returned unchanged, and the function is total, so
nothing is raised. -/
theorem C10_publish_unknown_noop :
    ∀ (reg : Registry) (job_id : String) (e : Event),
      (∀ p ∈ reg, p.1 ≠ job_id) → publish_event job_id e reg = reg := by
  intro reg
  induction reg with
  | nil => intro job_id e _; rfl
  | cons p rest ih =>
    intro job_id e h
    simp only [publish_event, List.map_cons]
    rw [if_neg (h p (List.mem_cons_self _ _))]
    have hrest := ih job_id e fun q hq => h q (List.mem_cons_of_mem _ hq)
    simp only [publish_event] at hrest
    rw [hrest]

/-- C10 witness: a concrete publish to an id not in the registry leaves the
registry unchanged. -/
theorem C10_publish_unknown_noop_witness :
    publish_event "missing" (progressEvent "convert" 10 none) [("j", cexJob)]
      = [("j", cexJob)] :=
  C10_publish_unknown_noop [("j", cexJob)] "missing"
    (progressEvent "convert" 10 none) (by decide)

/-- C6: the convert stage processes candidates strictly in order (the
attempt indices are `0, 1, 2, …`, a prefix of the candidate list); the
directory handed to each attempt contains only top-level `.pdf` files (every
subdirectory and non-pdf file was cleared); every attempt before the last
failed its success-and-discoverable-result test; and the loop succeeds
exactly when its final attempt reported success with a discoverable `.md`
result — after which no further candidate is attempted. -/
theorem C6_candidate_loop (tool : Tool) (step : Int) (cmds : List (List String))
    (stem pdf_name : String) (dmd : Option (List String)) (d0 : Dir) :
    ((convert_job tool step cmds stem pdf_name dmd d0).trace.map Attempt.idx
        = List.range (convert_job tool step cmds stem pdf_name dmd d0).trace.length) ∧
    ((convert_job tool step cmds stem pdf_name dmd d0).trace.length ≤ cmds.length) ∧
    (∀ a ∈ (convert_job tool step cmds stem pdf_name dmd d0).trace,
      ∀ e ∈ a.dir_in, pdfOnly e) ∧
    (∀ a ∈ (convert_job tool step cmds stem pdf_name dmd d0).trace.dropLast,
      a.cmd_ok = false ∨ a.md_found = false) ∧
    ((convert_job tool step cmds stem pdf_name dmd d0).loop_ok = true ↔
      ∃ a, (convert_job tool step cmds stem pdf_name dmd d0).trace.getLast? = some a ∧
        a.cmd_ok = true ∧ a.md_found = true) := by
  rw [convert_job_trace, convert_job_loop_ok]
  refine ⟨?_, run_attempts_len tool step stem cmds.length cmds 0 d0 "",
    run_attempts_clean tool step stem cmds.length cmds 0 d0 "",
    run_attempts_stops tool step stem cmds.length cmds 0 d0 "",
    run_attempts_ok_iff tool step stem cmds.length cmds 0 d0 ""⟩
  rw [run_attempts_idx tool step stem cmds.length cmds 0 d0 "",
    List.range_eq_range']

/-- C6 witness: in the two-candidate scenario whose first attempt fails,
that first attempt (the only element before the last) indeed failed its
test. -/
theorem C6_candidate_loop_witness :
    wAtt.cmd_ok = false ∨ wAtt.md_found = false :=
  (C6_candidate_loop toolTwoW 1 [["a"], ["b"]] "r" "r.pdf" none [wPdf]).2.2.2.1
    wAtt (by decide)

/-- C7: when every candidate is exhausted without success, the orchestrator
persists the last attempt's full transcript as the conversion log, publishes
as its final event the terminal error event (`percent = 100, ok = false`)
carrying the message classified from that transcript, and records the
failure to the history sink; the classification is by substring inspection:
the engine marker yields the engine-issue message, else the network markers
yield the retry/pre-fetch message, else the generic check-logs message. -/
theorem C7_error_path (tool : Tool) (step : Int) (cmds : List (List String))
    (stem pdf_name : String) (dmd : Option (List String)) (d0 : Dir)
    (hcm : cmds ≠ [])
    (hfail : (convert_job tool step cmds stem pdf_name dmd d0).loop_ok = false) :
    (∃ a, (convert_job tool step cmds stem pdf_name dmd d0).trace.getLast? = some a ∧
      (convert_job tool step cmds stem pdf_name dmd d0).conversion_log
        = some a.full_log ∧
      (convert_job tool step cmds stem pdf_name dmd d0).events.getLast?
        = some (errorEvent (classify_error a.full_log)) ∧
      (convert_job tool step cmds stem pdf_name dmd d0).history_ok = some false) ∧
    (∀ log, strIn "ModelWrapper" log = true →
      classify_error log = "Failed to convert. Detected Layout engine issue.") ∧
    (∀ log, strIn "ModelWrapper" log = false →
      (["ProtocolError", "ChunkedEncodingError", "IncompleteRead"].any
        (fun m => strIn m log)) = true →
      classify_error log
        = "Failed to convert. Model download failed due to network instability. Please run "
          ++ apos ++ "mineru-models-download" ++ apos
          ++ " manually in the environment.") ∧
    (∀ log, strIn "ModelWrapper" log = false →
      (["ProtocolError", "ChunkedEncodingError", "IncompleteRead"].any
        (fun m => strIn m log)) = false →
      classify_error log = "Failed to convert. Check logs for detailed traceback.") := by
  have hok : (run_attempts tool step stem cmds.length 0 cmds d0 "").ok = false := by
    rw [← convert_job_loop_ok tool step cmds stem pdf_name dmd d0]
    exact hfail
  have hlen := run_attempts_fail_len tool step stem cmds.length cmds 0 d0 "" hok
  have htne : (run_attempts tool step stem cmds.length 0 cmds d0 "").trace ≠ [] := by
    intro h0
    rw [h0] at hlen
    exact hcm (List.length_eq_zero.mp hlen.symm)
  obtain ⟨a, hga⟩ : ∃ a,
      (run_attempts tool step stem cmds.length 0 cmds d0 "").trace.getLast?
        = some a := by
    cases hg : (run_attempts tool step stem cmds.length 0 cmds d0 "").trace.getLast? with
    | none => exact absurd (List.getLast?_eq_none_iff.mp hg) htne
    | some a => exact ⟨a, rfl⟩
  have hlog := run_attempts_faillog tool step stem cmds.length cmds 0 d0 "" hok
  rw [hga] at hlog
  simp only [Option.map_some', Option.getD_some] at hlog
  refine ⟨⟨a, ?_, ?_, ?_, ?_⟩, ?_, ?_, ?_⟩
  · rw [convert_job_trace]
    exact hga
  · simp only [convert_job]
    rw [if_neg (by rw [hok]; simp)]
    simp only []
    rw [hlog]
  · simp only [convert_job]
    rw [if_neg (by rw [hok]; simp)]
    simp only []
    rw [List.getLast?_concat, hlog]
  · simp only [convert_job]
    rw [if_neg (by rw [hok]; simp)]
  · intro log hmw
    unfold classify_error
    rw [if_pos hmw]
    decide
  · intro log hmw hnet
    unfold classify_error
    rw [if_neg (by rw [hmw]; simp), if_pos hnet]
    decide
  · intro log hmw hnet
    unfold classify_error
    rw [if_neg (by rw [hmw]; simp), if_neg (by rw [hnet]; simp)]
    decide

/-- C7 witness: the failure contract at a concrete exhausted run. -/
theorem C7_error_path_witness :
    ∃ a, (convert_job toolFailW 1 [["mineru"]] "r" "r.pdf" none [wPdf]).trace.getLast?
        = some a ∧
      (convert_job toolFailW 1 [["mineru"]] "r" "r.pdf" none [wPdf]).conversion_log
        = some a.full_log ∧
      (convert_job toolFailW 1 [["mineru"]] "r" "r.pdf" none [wPdf]).events.getLast?
        = some (errorEvent (classify_error a.full_log)) ∧
      (convert_job toolFailW 1 [["mineru"]] "r" "r.pdf" none [wPdf]).history_ok
        = some false :=
  (C7_error_path toolFailW 1 [["mineru"]] "r" "r.pdf" none [wPdf]
    (by decide) (by decide)).1

/-- C8: when some candidate ultimately succeeds, the final published event
is the terminal success event (`percent = 100, ok = true`, canonical result
path), success is recorded to the history sink, and the transcript persisted
for diagnostics is the winning attempt's — the failing attempts' transcripts
are discarded. -/
theorem C8_success_path (tool : Tool) (step : Int) (cmds : List (List String))
    (stem pdf_name : String) (dmd : Option (List String)) (d0 : Dir)
    (hok : (convert_job tool step cmds stem pdf_name dmd d0).loop_ok = true) :
    ∃ a, (convert_job tool step cmds stem pdf_name dmd d0).trace.getLast? = some a ∧
      a.cmd_ok = true ∧ a.md_found = true ∧
      (convert_job tool step cmds stem pdf_name dmd d0).conversion_log
        = some a.full_log ∧
      (convert_job tool step cmds stem pdf_name dmd d0).events.getLast?
        = some (doneEvent (pathStr [stem ++ ".md"])) ∧
      (convert_job tool step cmds stem pdf_name dmd d0).history_ok = some true := by
  have hok' : (run_attempts tool step stem cmds.length 0 cmds d0 "").ok = true := by
    rw [← convert_job_loop_ok tool step cmds stem pdf_name dmd d0]
    exact hok
  obtain ⟨a, hga, hsl, hmd⟩ :=
    run_attempts_succlog tool step stem cmds.length cmds 0 d0 "" hok'
  obtain ⟨a2, hga2, hcmd, hfound⟩ :=
    (run_attempts_ok_iff tool step stem cmds.length cmds 0 d0 "").mp hok'
  rw [hga] at hga2
  have haa := Option.some.inj hga2
  subst haa
  obtain ⟨p, hp⟩ : ∃ p,
      ((search_md (run_attempts tool step stem cmds.length 0 cmds d0 "").dir
        stem).orElse fun _ => dmd) = some p := by
    cases hs : search_md (run_attempts tool step stem cmds.length 0 cmds d0 "").dir
        stem with
    | none => rw [hs] at hmd; simp at hmd
    | some q => exact ⟨q, rfl⟩
  refine ⟨a, ?_, hcmd, hfound, ?_, ?_, ?_⟩
  · rw [convert_job_trace]
    exact hga
  · simp only [convert_job]
    rw [if_pos hok', hp]
    simp only []
    rw [hsl]
  · simp only [convert_job]
    rw [if_pos hok', hp]
    simp only []
    rw [show ∀ (l : List Event) (x y : Event), l ++ [x, y] = (l ++ [x]) ++ [y] from
      by intro l x y; simp]
    rw [List.getLast?_concat]
  · simp only [convert_job]
    rw [if_pos hok', hp]

/-- C8 witness: the success contract in the two-candidate scenario where the
first candidate fails and the second succeeds. -/
theorem C8_success_path_witness :
    ∃ a, (convert_job toolTwoW 1 [["a"], ["b"]] "r" "r.pdf" none [wPdf]).trace.getLast?
        = some a ∧
      a.cmd_ok = true ∧ a.md_found = true ∧
      (convert_job toolTwoW 1 [["a"], ["b"]] "r" "r.pdf" none [wPdf]).conversion_log
        = some a.full_log ∧
      (convert_job toolTwoW 1 [["a"], ["b"]] "r" "r.pdf" none [wPdf]).events.getLast?
        = some (doneEvent (pathStr ["r" ++ ".md"])) ∧
      (convert_job toolTwoW 1 [["a"], ["b"]] "r" "r.pdf" none [wPdf]).history_ok
        = some true :=
  C8_success_path toolTwoW 1 [["a"], ["b"]] "r" "r.pdf" none [wPdf] (by decide)

end FRA
